import Mathlib

/-!
Shallow embedding of the `time_window` library (`time_window/time_window.py`
and `time_window/helpers.py`).  Timestamps (`datetime` values) are modelled as
integers counting microseconds; durations are integer differences.  Python
values returned as `False`/`None`-or-data are modelled with `Option`,
one-or-two-window results with small sum types, and raised exceptions with
`Except PyError`.
-/

/-- A half-open range of timestamps, `[since, until)`.  Mirrors the attributes
of the Python `TimeWindow` class. -/
structure TimeWindow where
  since : Int
  until_ : Int
deriving DecidableEq

/-- The constructor invariant enforced by `TimeWindow.__init__`:
`until >= since`. -/
def TimeWindow.valid (w : TimeWindow) : Prop := w.since ≤ w.until_

instance (w : TimeWindow) : Decidable w.valid :=
  inferInstanceAs (Decidable (w.since ≤ w.until_))

/-- Exceptions raised by the modelled code paths. -/
inductive PyError where
  | typeError
  | valueError
  | indexError
deriving DecidableEq

/-- A dynamically-typed constructor argument: either a `datetime` (an integer
timestamp in this model) or a value of some other runtime type. -/
inductive PyObj where
  | dt (t : Int)
  | nonDatetime
deriving DecidableEq

/-- Model of `TimeWindow.__init__`: type-checks both boundaries, then checks
`until >= since`, raising `TypeError` / `ValueError` respectively. -/
def TimeWindow.init : PyObj → PyObj → Except PyError TimeWindow
  | PyObj.nonDatetime, _ => Except.error PyError.typeError
  | PyObj.dt _, PyObj.nonDatetime => Except.error PyError.typeError
  | PyObj.dt s, PyObj.dt u =>
      if u ≥ s then Except.ok ⟨s, u⟩ else Except.error PyError.valueError

/-- Model of the module-level helper `_sort_time_windows_since`. -/
def sort_time_windows_since (tw1 tw2 : TimeWindow) : TimeWindow × TimeWindow :=
  if tw1.since < tw2.since then (tw1, tw2) else (tw2, tw1)

/-- Model of `TimeWindow.overlaps`. -/
def TimeWindow.overlaps (a other : TimeWindow) : Bool :=
  if max a.since other.since ≥ min a.until_ other.until_ then false else true

/-- Model of `TimeWindow.contiguous`: `none` stands for the Python return
value `False`, `some (x, y)` for the returned two-element list `[x, y]`. -/
def TimeWindow.contiguous (a other : TimeWindow) : Option (TimeWindow × TimeWindow) :=
  if a.overlaps other = false then
    let tws := sort_time_windows_since a other
    if tws.1.until_ = tws.2.since then some tws else none
  else none

/-- Model of `TimeWindow.contains` applied to a `datetime` argument. -/
def TimeWindow.containsTime (w : TimeWindow) (t : Int) : Bool :=
  decide (w.since ≤ t) && decide (t < w.until_)

/-- Model of `TimeWindow.contains` applied to a `TimeWindow` argument. -/
def TimeWindow.contains (w other : TimeWindow) : Bool :=
  decide (w.since ≤ other.since) && decide (w.until_ ≥ other.until_)

/-- Result shape of `TimeWindow.union`: a single window or a two-element
list. -/
inductive UnionResult where
  | single (w : TimeWindow)
  | pair (first second : TimeWindow)
deriving DecidableEq

/-- Model of `TimeWindow.union`. -/
def TimeWindow.union (a other : TimeWindow) : UnionResult :=
  if a.overlaps other = false then
    let tws := sort_time_windows_since a other
    if tws.1.until_ = tws.2.since then UnionResult.single ⟨tws.1.since, tws.2.until_⟩
    else UnionResult.pair tws.1 tws.2
  else UnionResult.single ⟨min a.since other.since, max a.until_ other.until_⟩

/-- The set of timestamps covered by a `UnionResult`, as a Boolean membership
test (half-open membership, like `TimeWindow.contains` on a timestamp). -/
def UnionResult.covers : UnionResult → Int → Bool
  | UnionResult.single w, t => w.containsTime t
  | UnionResult.pair w1 w2, t => w1.containsTime t || w2.containsTime t

/-- Model of `TimeWindow.intersection`: `none` stands for the Python `None`. -/
def TimeWindow.intersection (a other : TimeWindow) : Option TimeWindow :=
  if max a.since other.since ≥ min a.until_ other.until_ then none
  else some ⟨max a.since other.since, min a.until_ other.until_⟩

/-- Result shape of `TimeWindow.complement`: Python returns `None`, a single
`TimeWindow`, or a two-element list. -/
inductive ComplementResult where
  | empty
  | single (w : TimeWindow)
  | double (first second : TimeWindow)
deriving DecidableEq

/-- Model of `TimeWindow.complement` (`self - other`). -/
def TimeWindow.complement (a other : TimeWindow) : ComplementResult :=
  match a.intersection other with
  | none => ComplementResult.single ⟨a.since, a.until_⟩
  | some overlap =>
    if overlap = a then ComplementResult.empty
    else if overlap.since = a.since then ComplementResult.single ⟨overlap.until_, a.until_⟩
    else if overlap.until_ = a.until_ then ComplementResult.single ⟨a.since, overlap.since⟩
    else ComplementResult.double ⟨a.since, other.since⟩ ⟨other.until_, a.until_⟩

/-- Model of the helper `make_sequence` specialised to complement results:
`None` becomes `[]`, a single window a one-element list. -/
def ComplementResult.toList : ComplementResult → List TimeWindow
  | ComplementResult.empty => []
  | ComplementResult.single w => [w]
  | ComplementResult.double w1 w2 => [w1, w2]

/-- The loop of `TimeWindow.split_per_day`, with timestamps in microseconds:
`start.replace(hour=0, minute=0, second=0, microsecond=0) + timedelta(days=1)`
is the first midnight strictly after the start of `start`'s day, i.e.
`start - start % day + day` with `day = 86400000000` microseconds. -/
def TimeWindow.splitPerDayAux (u : Int) (start : Int) : List TimeWindow :=
  if h : start - start % 86400000000 + 86400000000 > u then
    [⟨start, u⟩]
  else
    ⟨start, start - start % 86400000000 + 86400000000⟩ ::
      TimeWindow.splitPerDayAux u (start - start % 86400000000 + 86400000000)
termination_by (u - start).toNat
decreasing_by
  omega

/-- Model of `TimeWindow.split_per_day`. -/
def TimeWindow.split_per_day (w : TimeWindow) : List TimeWindow :=
  TimeWindow.splitPerDayAux w.until_ w.since

/-- Ordering relation used by `sorted(..., key=lambda tw: tw.since)`. -/
def sinceLE (x y : TimeWindow) : Prop := x.since ≤ y.since

instance : DecidableRel sinceLE :=
  fun x y => inferInstanceAs (Decidable (x.since ≤ y.since))

instance : IsTotal TimeWindow sinceLE := ⟨fun x y => Int.le_total x.since y.since⟩

instance : IsTrans TimeWindow sinceLE := ⟨fun _ _ _ h1 h2 => le_trans h1 h2⟩

namespace TimeWindowsCollection

/-- Model of the property `TimeWindowsCollection.time_windows_sorted_by_since`:
a stable sort of the raw list ascending on `since` (Python's `sorted` is
stable, as is insertion sort). -/
def time_windows_sorted_by_since (l : List TimeWindow) : List TimeWindow :=
  List.insertionSort sinceLE l

/-- The sweep loop of `TimeWindowsCollection.compressed`: `latest` is the
running merged range, the list the remaining sorted windows; returns the
emitted stack with the final range appended. -/
def compressedAux (latest : TimeWindow) : List TimeWindow → List TimeWindow
  | [] => [latest]
  | current :: rest =>
    if latest.until_ ≥ current.since then
      compressedAux ⟨latest.since, max latest.until_ current.until_⟩ rest
    else
      latest :: compressedAux current rest

/-- Model of `TimeWindowsCollection.compressed` (the collection is modelled by
its list of member windows). -/
def compressed (l : List TimeWindow) : List TimeWindow :=
  match time_windows_sorted_by_since l with
  | [] => []
  | first :: rest => compressedAux first rest

/-- Model of `TimeWindowsCollection.complement`: the statement
`inverse[-1:] = make_sequence(inverse[-1] - tw)` reads `inverse[-1]` first,
which raises `IndexError` when `inverse` is empty. -/
def complement (l : List TimeWindow) (period : TimeWindow) :
    Except PyError (List TimeWindow) :=
  (time_windows_sorted_by_since l).foldlM
    (fun inverse tw =>
      match inverse.getLast? with
      | none => Except.error PyError.indexError
      | some last => Except.ok (inverse.dropLast ++ (last.complement tw).toList))
    [period]

end TimeWindowsCollection

/-- Model of `helpers.utctimestamp_tzaware`: `timegm(dt.timetuple())` drops the
microsecond field, i.e. floors the instant to whole seconds. -/
def utctimestamp_tzaware (dt : Int) : Int := dt / 1000000

/-- Model of `helpers.utcfromtimestamp_tzaware`: whole seconds back to a
microsecond-precision instant. -/
def utcfromtimestamp_tzaware (ts : Int) : Int := ts * 1000000

/-- Model of `time_window_to_timestamps`. -/
def time_window_to_timestamps (w : TimeWindow) : Int × Int :=
  (utctimestamp_tzaware w.since, utctimestamp_tzaware w.until_)

/-- Model of `time_window_from_timestamps` (which calls the checking
`TimeWindow` constructor). -/
def time_window_from_timestamps (p : Int × Int) : Except PyError TimeWindow :=
  TimeWindow.init (PyObj.dt (utcfromtimestamp_tzaware p.1))
    (PyObj.dt (utcfromtimestamp_tzaware p.2))

/-- `overlaps` returns `false` exactly when the intersection range is empty. -/
lemma overlaps_eq_false_iff (a b : TimeWindow) :
    a.overlaps b = false ↔ min a.until_ b.until_ ≤ max a.since b.since := by
  unfold TimeWindow.overlaps
  split_ifs with h <;> simp <;> omega

/-- `overlaps` returns `true` exactly when the intersection range is
non-empty. -/
lemma overlaps_eq_true_iff (a b : TimeWindow) :
    a.overlaps b = true ↔ max a.since b.since < min a.until_ b.until_ := by
  unfold TimeWindow.overlaps
  split_ifs with h <;> simp <;> omega

/-- Unfolding equation for the terminating branch of `splitPerDayAux`. -/
lemma splitPerDayAux_stop (u s : Int)
    (h : s - s % 86400000000 + 86400000000 > u) :
    TimeWindow.splitPerDayAux u s = [⟨s, u⟩] := by
  unfold TimeWindow.splitPerDayAux
  rw [dif_pos h]

/-- Unfolding equation for the looping branch of `splitPerDayAux`. -/
lemma splitPerDayAux_step (u s : Int)
    (h : ¬(s - s % 86400000000 + 86400000000 > u)) :
    TimeWindow.splitPerDayAux u s =
      ⟨s, s - s % 86400000000 + 86400000000⟩ ::
        TimeWindow.splitPerDayAux u (s - s % 86400000000 + 86400000000) := by
  conv_lhs => rw [TimeWindow.splitPerDayAux]
  rw [dif_neg h]

/-- C1: the spec asks that `compressed()` plus `complement(B)` reconstruct any
bound `B` containing every member, for arbitrary (unsorted, overlapping)
collections.  The code instead raises `IndexError` inside `complement` on the
collection `[[0,6), [5,10), [7,8)]` with bound `[0,10)` (every member is
contained in the bound): after `[5,10)` is subtracted the candidate list is
empty and the next iteration reads `inverse[-1]` of an empty list. -/
theorem c1_complement_union_failing_input :
    (TimeWindow.contains ⟨0, 10⟩ ⟨0, 6⟩ = true ∧
     TimeWindow.contains ⟨0, 10⟩ ⟨5, 10⟩ = true ∧
     TimeWindow.contains ⟨0, 10⟩ ⟨7, 8⟩ = true) ∧
    TimeWindowsCollection.complement [⟨0, 6⟩, ⟨5, 10⟩, ⟨7, 8⟩] ⟨0, 10⟩ =
      Except.error PyError.indexError :=
  ⟨⟨rfl, rfl, rfl⟩, rfl⟩

/-- C4 counterexample: for the zero-width window `a = [0, 0)`,
`a.complement(a)` is not `None`; the empty self-intersection sends the code
down the no-overlap branch, which returns a copy of `a`. -/
theorem c4_counterexample :
    TimeWindow.complement ⟨0, 0⟩ ⟨0, 0⟩ = ComplementResult.single ⟨0, 0⟩ ∧
    TimeWindow.complement ⟨0, 0⟩ ⟨0, 0⟩ ≠ ComplementResult.empty := by
  decide

/-- C4 (amended): for every window of positive width, self-complement is
absent; for every zero-width window, self-complement returns a copy of the
window itself. -/
theorem c4_self_complement (a : TimeWindow) :
    (a.since < a.until_ → a.complement a = ComplementResult.empty) ∧
    (a.since = a.until_ → a.complement a = ComplementResult.single a) := by
  constructor
  · intro h
    have hint : a.intersection a = some a := by
      unfold TimeWindow.intersection
      rw [if_neg (by simp; omega)]
      simp
    unfold TimeWindow.complement
    rw [hint]
    simp
  · intro h
    have hint : a.intersection a = none := by
      unfold TimeWindow.intersection
      rw [if_pos (by simp [h])]
    unfold TimeWindow.complement
    rw [hint]

/-- C4 witness: the amended theorem applied to the window `[0, 1)`. -/
theorem c4_witness :
    TimeWindow.complement ⟨0, 1⟩ ⟨0, 1⟩ = ComplementResult.empty :=
  (c4_self_complement ⟨0, 1⟩).1 (by norm_num)

/-- C5 counterexample: the zero-width window `a = [0, 0)` is reported
contiguous with itself — `a.contiguous(a)` returns the list `[a, a]`, not
`False` — refuting the claim that two identical windows are never
contiguous. -/
theorem c5_counterexample :
    TimeWindow.contiguous ⟨0, 0⟩ ⟨0, 0⟩ = some (⟨0, 0⟩, ⟨0, 0⟩) ∧
    TimeWindow.contiguous ⟨0, 0⟩ ⟨0, 0⟩ ≠ none := by
  decide

/-- C5 (amended): any pair returned by `contiguous` is the two inputs ordered
ascending by `since`, shares the claimed boundary and does not overlap;
whenever the windows have distinct `since` values, do not overlap and one's
`until` equals the other's `since`, a pair is returned; a positive-width
window is never contiguous with itself, but a zero-width window is contiguous
with itself, returning the pair `(a, a)`. -/
theorem c5_contiguous_characterization (a b : TimeWindow) :
    (∀ p, a.contiguous b = some p →
      p.1.since ≤ p.2.since ∧ p.1.until_ = p.2.since ∧ a.overlaps b = false ∧
        ((p.1 = a ∧ p.2 = b) ∨ (p.1 = b ∧ p.2 = a))) ∧
    (a.valid → b.valid → a.since ≠ b.since → a.overlaps b = false →
      (a.until_ = b.since ∨ b.until_ = a.since) → a.contiguous b ≠ none) ∧
    (a.since < a.until_ → a.contiguous a = none) ∧
    (a.since = a.until_ → a.contiguous a = some (a, a)) := by
  refine ⟨?_, ?_, ?_, ?_⟩
  · intro p hp
    unfold TimeWindow.contiguous sort_time_windows_since at hp
    by_cases hov : a.overlaps b = false
    · rw [if_pos hov] at hp
      by_cases hlt : a.since < b.since
      · rw [if_pos hlt] at hp
        dsimp only at hp
        by_cases heq : a.until_ = b.since
        · rw [if_pos heq] at hp
          obtain rfl : (a, b) = p := Option.some.inj hp
          exact ⟨le_of_lt hlt, heq, hov, Or.inl ⟨rfl, rfl⟩⟩
        · rw [if_neg heq] at hp
          exact absurd hp (by simp)
      · rw [if_neg hlt] at hp
        dsimp only at hp
        by_cases heq : b.until_ = a.since
        · rw [if_pos heq] at hp
          obtain rfl : (b, a) = p := Option.some.inj hp
          exact ⟨by dsimp only; omega, heq, hov, Or.inr ⟨rfl, rfl⟩⟩
        · rw [if_neg heq] at hp
          exact absurd hp (by simp)
    · rw [if_neg hov] at hp
      exact absurd hp (by simp)
  · intro ha hb hne hov hor
    unfold TimeWindow.valid at ha hb
    unfold TimeWindow.contiguous sort_time_windows_since
    rw [if_pos hov]
    rcases hne.lt_or_lt with hlt | hlt
    · rw [if_pos hlt]
      have hun : a.until_ = b.since := by
        rcases hor with h | h
        · exact h
        · omega
      rw [if_pos hun]
      simp
    · rw [if_neg (by omega : ¬a.since < b.since)]
      have hun : b.until_ = a.since := by
        rcases hor with h | h
        · omega
        · exact h
      rw [if_pos hun]
      simp
  · intro h
    have hov : a.overlaps a = true := by
      rw [overlaps_eq_true_iff]
      simp [h]
    unfold TimeWindow.contiguous
    rw [if_neg (by simp [hov])]
  · intro h
    have hov : a.overlaps a = false := by
      rw [overlaps_eq_false_iff]
      simp [h.ge]
    unfold TimeWindow.contiguous sort_time_windows_since
    rw [if_pos hov, if_neg (lt_irrefl a.since), if_pos h.symm]

/-- C5 witness: the amended theorem's completeness part applied to the
touching windows `[0, 5)` and `[5, 9)`. -/
theorem c5_witness : TimeWindow.contiguous ⟨0, 5⟩ ⟨5, 9⟩ ≠ none :=
  (c5_contiguous_characterization ⟨0, 5⟩ ⟨5, 9⟩).2.1 (by decide) (by decide)
    (by decide) (by decide) (Or.inl rfl)

/-- C7 counterexample: the window `[23:00, 24:00)` of day zero (microsecond
timestamps `[82800000000, 86400000000)`) has no local midnight strictly
inside it, yet `split_per_day` returns two windows — the original plus a
trailing zero-width window at the midnight boundary — not the single-element
list the claim demands. -/
theorem c7_counterexample :
    (¬∃ m : Int, 82800000000 < 86400000000 * m ∧ 86400000000 * m < 86400000000) ∧
    TimeWindow.split_per_day ⟨82800000000, 86400000000⟩ =
      [⟨82800000000, 86400000000⟩, ⟨86400000000, 86400000000⟩] ∧
    TimeWindow.split_per_day ⟨82800000000, 86400000000⟩ ≠
      [⟨82800000000, 86400000000⟩] := by
  have he : (82800000000 : Int) % 86400000000 = 82800000000 := by decide
  have he2 : (86400000000 : Int) % 86400000000 = 0 := by decide
  have h2 : TimeWindow.split_per_day ⟨82800000000, 86400000000⟩ =
      [⟨82800000000, 86400000000⟩, ⟨86400000000, 86400000000⟩] := by
    unfold TimeWindow.split_per_day
    dsimp only
    rw [splitPerDayAux_step _ _ (by omega)]
    rw [show (82800000000 : Int) - 82800000000 % 86400000000 + 86400000000 =
        86400000000 from by omega]
    rw [splitPerDayAux_stop _ _ (by omega)]
  refine ⟨?_, h2, ?_⟩
  · rintro ⟨m, hm1, hm2⟩
    omega
  · rw [h2]
    decide

/-- C7 (amended): for every window whose `until` lies strictly before the
first midnight after the start of `since`'s day (equivalently: no local
midnight strictly inside the window and `until` not itself exactly at that
midnight), `split_per_day` returns the single-element list holding the
original window with unchanged boundaries. -/
theorem c7_split_per_day_single (w : TimeWindow)
    (h : w.until_ < w.since - w.since % 86400000000 + 86400000000) :
    TimeWindow.split_per_day w = [w] := by
  unfold TimeWindow.split_per_day
  rw [splitPerDayAux_stop _ _ (by omega)]

/-- C7 witness: the amended theorem applied to a small mid-day window. -/
theorem c7_witness :
    TimeWindow.split_per_day ⟨100, 200⟩ = [⟨100, 200⟩] :=
  c7_split_per_day_single ⟨100, 200⟩ (by norm_num)

/-- C8: construction succeeds with the given boundaries exactly when both
arguments are timestamps with `until >= since` (zero-width included); a
reversed pair raises the value error, and a non-timestamp boundary on either
side raises the type error. -/
theorem c8_construction (s u : Int) :
    (s ≤ u → TimeWindow.init (PyObj.dt s) (PyObj.dt u) = Except.ok ⟨s, u⟩) ∧
    (u < s → TimeWindow.init (PyObj.dt s) (PyObj.dt u) =
      Except.error PyError.valueError) ∧
    (∀ x, TimeWindow.init PyObj.nonDatetime x = Except.error PyError.typeError) ∧
    TimeWindow.init (PyObj.dt s) PyObj.nonDatetime =
      Except.error PyError.typeError := by
  refine ⟨fun h => ?_, fun h => ?_, fun x => rfl, rfl⟩
  · show (if u ≥ s then Except.ok (⟨s, u⟩ : TimeWindow) else
        Except.error PyError.valueError) = Except.ok ⟨s, u⟩
    rw [if_pos h]
  · show (if u ≥ s then Except.ok (⟨s, u⟩ : TimeWindow) else
        Except.error PyError.valueError) = Except.error PyError.valueError
    rw [if_neg (by omega)]

/-- C8 witness: constructing `[0, 1)` succeeds, a zero-width window succeeds,
and the reversed pair `(1, 0)` fails with the value error. -/
theorem c8_witness :
    TimeWindow.init (PyObj.dt 0) (PyObj.dt 1) = Except.ok ⟨0, 1⟩ ∧
    TimeWindow.init (PyObj.dt 2) (PyObj.dt 2) = Except.ok ⟨2, 2⟩ ∧
    TimeWindow.init (PyObj.dt 1) (PyObj.dt 0) = Except.error PyError.valueError :=
  ⟨(c8_construction 0 1).1 (by norm_num), (c8_construction 2 2).1 le_rfl,
    (c8_construction 1 0).2.1 (by norm_num)⟩

/-- C9: converting a window to epoch seconds and back floors each boundary to
a whole second (sub-second microseconds are dropped), and reproduces the
window exactly when both boundaries are whole seconds. -/
theorem c9_timestamp_roundtrip (w : TimeWindow) (h : w.valid) :
    time_window_from_timestamps (time_window_to_timestamps w) =
      Except.ok ⟨w.since - w.since % 1000000,
        w.until_ - w.until_ % 1000000⟩ ∧
    (w.since % 1000000 = 0 → w.until_ % 1000000 = 0 →
      time_window_from_timestamps (time_window_to_timestamps w) = Except.ok w) := by
  unfold TimeWindow.valid at h
  have main : time_window_from_timestamps (time_window_to_timestamps w) =
      Except.ok ⟨w.since - w.since % 1000000,
        w.until_ - w.until_ % 1000000⟩ := by
    unfold time_window_from_timestamps time_window_to_timestamps
      utcfromtimestamp_tzaware utctimestamp_tzaware
    show (if w.until_ / 1000000 * 1000000 ≥ w.since / 1000000 * 1000000
        then Except.ok (⟨w.since / 1000000 * 1000000,
          w.until_ / 1000000 * 1000000⟩ : TimeWindow)
        else Except.error PyError.valueError) = _
    rw [if_pos (by omega)]
    have hs : w.since / 1000000 * 1000000 =
        w.since - w.since % 1000000 := by omega
    have hu : w.until_ / 1000000 * 1000000 =
        w.until_ - w.until_ % 1000000 := by omega
    rw [hs, hu]
  refine ⟨main, fun h1 h2 => ?_⟩
  rw [main, h1, h2]
  simp

/-- C9 witness: the boundary `1.5s` is floored to `1s` while the whole-second
boundary `2s` round-trips exactly, and a whole-second window round-trips to
itself. -/
theorem c9_witness :
    time_window_from_timestamps (time_window_to_timestamps ⟨1500000, 2000000⟩) =
      Except.ok ⟨1000000, 2000000⟩ ∧
    time_window_from_timestamps (time_window_to_timestamps ⟨1000000, 2000000⟩) =
      Except.ok ⟨1000000, 2000000⟩ := by
  constructor
  · have h := (c9_timestamp_roundtrip ⟨1500000, 2000000⟩ (by decide)).1
    rw [(by decide : (⟨1500000 - 1500000 % 1000000,
      2000000 - 2000000 % 1000000⟩ : TimeWindow) =
        (⟨1000000, 2000000⟩ : TimeWindow))] at h
    exact h
  · exact (c9_timestamp_roundtrip ⟨1000000, 2000000⟩ (by decide)).2
      (by decide) (by decide)

/-- C10: containment of a zero-width window `[t, t)` in `a` holds exactly for
`a.since <= t <= a.until` — so the zero-width window sitting at `a`'s
exclusive upper boundary is reported contained even though the timestamp
`a.until` itself is not a member of `a`. -/
theorem c10_contains_zero_width (a : TimeWindow) (t : Int) :
    (a.contains ⟨t, t⟩ = (decide (a.since ≤ t) && decide (t ≤ a.until_))) ∧
    (a.valid → a.contains ⟨a.until_, a.until_⟩ = true ∧
      a.containsTime a.until_ = false) := by
  constructor
  · rfl
  · intro h
    have h' : a.since ≤ a.until_ := h
    constructor
    · simp [TimeWindow.contains, h']
    · simp [TimeWindow.containsTime]

/-- C10 witness: the window `[0, 5)` contains the zero-width window `[5, 5)`
while the timestamp `5` is not a member. -/
theorem c10_witness :
    TimeWindow.contains ⟨0, 5⟩ ⟨5, 5⟩ = true ∧
    TimeWindow.containsTime ⟨0, 5⟩ 5 = false :=
  (c10_contains_zero_width ⟨0, 5⟩ 5).2 (by decide)

/-- For valid windows, a union result covers a timestamp exactly when one of
the two arguments does. -/
lemma union_covers_eq (a b : TimeWindow) (ha : a.valid) (hb : b.valid) (t : Int) :
    (a.union b).covers t = (a.containsTime t || b.containsTime t) := by
  unfold TimeWindow.valid at ha hb
  unfold TimeWindow.union sort_time_windows_since
  by_cases hov : a.overlaps b = false
  · have hm := (overlaps_eq_false_iff a b).1 hov
    rw [if_pos hov]
    by_cases hlt : a.since < b.since
    · rw [if_pos hlt]
      dsimp only
      by_cases heq : a.until_ = b.since
      · rw [if_pos heq]
        unfold UnionResult.covers TimeWindow.containsTime
        rw [Bool.eq_iff_iff]
        simp only [Bool.and_eq_true, Bool.or_eq_true, decide_eq_true_eq]
        omega
      · rw [if_neg heq]
        rfl
    · rw [if_neg hlt]
      dsimp only
      by_cases heq : b.until_ = a.since
      · rw [if_pos heq]
        unfold UnionResult.covers TimeWindow.containsTime
        rw [Bool.eq_iff_iff]
        simp only [Bool.and_eq_true, Bool.or_eq_true, decide_eq_true_eq]
        omega
      · rw [if_neg heq]
        unfold UnionResult.covers
        rw [Bool.or_comm]
  · rw [if_neg hov]
    have hov' : a.overlaps b = true := by
      revert hov
      cases a.overlaps b <;> simp
    have hm := (overlaps_eq_true_iff a b).1 hov'
    unfold UnionResult.covers TimeWindow.containsTime
    rw [Bool.eq_iff_iff]
    simp only [Bool.and_eq_true, Bool.or_eq_true, decide_eq_true_eq]
    omega

/-- C6: `union` is commutative in content — both argument orders cover the
same timestamps — and any two-window result lists the earlier window (by
`since`) first and its members disjoint, whichever operand was the
receiver. -/
theorem c6_union_commutative (a b : TimeWindow) (ha : a.valid) (hb : b.valid) :
    (∀ t, (a.union b).covers t = (b.union a).covers t) ∧
    (∀ w1 w2, a.union b = UnionResult.pair w1 w2 →
      w1.since ≤ w2.since ∧ w1.overlaps w2 = false) := by
  constructor
  · intro t
    rw [union_covers_eq a b ha hb t, union_covers_eq b a hb ha t, Bool.or_comm]
  · intro w1 w2 hp
    unfold TimeWindow.union sort_time_windows_since at hp
    by_cases hov : a.overlaps b = false
    · rw [if_pos hov] at hp
      by_cases hlt : a.since < b.since
      · rw [if_pos hlt] at hp
        dsimp only at hp
        by_cases heq : a.until_ = b.since
        · rw [if_pos heq] at hp
          cases hp
        · rw [if_neg heq] at hp
          cases hp
          exact ⟨le_of_lt hlt, hov⟩
      · rw [if_neg hlt] at hp
        dsimp only at hp
        by_cases heq : b.until_ = a.since
        · rw [if_pos heq] at hp
          cases hp
        · rw [if_neg heq] at hp
          cases hp
          refine ⟨by omega, ?_⟩
          rw [overlaps_eq_false_iff] at hov ⊢
          omega
    · rw [if_neg hov] at hp
      cases hp

/-- C6 witness: the theorem applied to the disjoint windows `[0, 1)` and
`[2, 3)` at the timestamp `2`. -/
theorem c6_witness :
    ((⟨0, 1⟩ : TimeWindow).union ⟨2, 3⟩).covers 2 =
      ((⟨2, 3⟩ : TimeWindow).union ⟨0, 1⟩).covers 2 :=
  (c6_union_commutative ⟨0, 1⟩ ⟨2, 3⟩ (by decide) (by decide)).1 2

/-- The sweep always emits a first window starting at the running range's
`since`, with an `until` no earlier than the running range's `until`. -/
lemma compressedAux_shape : ∀ (rest : List TimeWindow) (latest : TimeWindow),
    ∃ u tl, TimeWindowsCollection.compressedAux latest rest =
      ⟨latest.since, u⟩ :: tl ∧ latest.until_ ≤ u := by
  intro rest
  induction rest with
  | nil => exact fun latest => ⟨latest.until_, [], rfl, le_refl _⟩
  | cons current rest ih =>
    intro latest
    unfold TimeWindowsCollection.compressedAux
    by_cases h : latest.until_ ≥ current.since
    · rw [if_pos h]
      obtain ⟨u, tl, heq, hle⟩ := ih ⟨latest.since, max latest.until_ current.until_⟩
      exact ⟨u, tl, heq, le_trans (le_max_left _ _) hle⟩
    · rw [if_neg h]
      exact ⟨latest.until_, TimeWindowsCollection.compressedAux current rest,
        rfl, le_refl _⟩

/-- Consecutive windows emitted by the sweep are separated by a strict gap. -/
lemma compressedAux_chain : ∀ (rest : List TimeWindow) (latest : TimeWindow),
    List.Chain' (fun x y => x.until_ < y.since)
      (TimeWindowsCollection.compressedAux latest rest) := by
  intro rest
  induction rest with
  | nil => exact fun _ => List.chain'_singleton _
  | cons current rest ih =>
    intro latest
    unfold TimeWindowsCollection.compressedAux
    by_cases h : latest.until_ ≥ current.since
    · rw [if_pos h]
      exact ih _
    · rw [if_neg h]
      obtain ⟨u, tl, heq, _⟩ := compressedAux_shape rest current
      rw [heq]
      exact List.chain'_cons.2 ⟨by dsimp only; omega, heq ▸ ih current⟩

/-- Every window emitted by the sweep is valid when the running range and all
remaining input windows are valid. -/
lemma compressedAux_valid : ∀ (rest : List TimeWindow) (latest : TimeWindow),
    latest.valid → (∀ w ∈ rest, w.valid) →
    ∀ w ∈ TimeWindowsCollection.compressedAux latest rest, w.valid := by
  intro rest
  induction rest with
  | nil =>
    intro latest hl _ w hw
    simp [TimeWindowsCollection.compressedAux] at hw
    exact hw ▸ hl
  | cons current rest ih =>
    intro latest hl hrest w hw
    unfold TimeWindowsCollection.compressedAux at hw
    by_cases h : latest.until_ ≥ current.since
    · rw [if_pos h] at hw
      refine ih _ ?_ (fun x hx => hrest x (List.mem_cons_of_mem _ hx)) w hw
      show latest.since ≤ max latest.until_ current.until_
      exact le_trans hl (le_max_left _ _)
    · rw [if_neg h] at hw
      rcases List.mem_cons.1 hw with rfl | hw'
      · exact hl
      · exact ih current (hrest current (List.mem_cons_self _ _))
          (fun x hx => hrest x (List.mem_cons_of_mem _ hx)) w hw'

/-- Every window emitted by the sweep starts no earlier than the running
range, provided the remaining input is sorted and lower-bounded by it. -/
lemma compressedAux_lower : ∀ (rest : List TimeWindow) (latest : TimeWindow),
    List.Pairwise sinceLE rest → (∀ w ∈ rest, latest.since ≤ w.since) →
    ∀ w ∈ TimeWindowsCollection.compressedAux latest rest,
      latest.since ≤ w.since := by
  intro rest
  induction rest with
  | nil =>
    intro latest _ _ w hw
    simp [TimeWindowsCollection.compressedAux] at hw
    exact hw ▸ le_refl _
  | cons current rest ih =>
    intro latest hsort hlb w hw
    unfold TimeWindowsCollection.compressedAux at hw
    rcases List.pairwise_cons.1 hsort with ⟨hcur, hsort'⟩
    by_cases h : latest.until_ ≥ current.since
    · rw [if_pos h] at hw
      exact ih ⟨latest.since, max latest.until_ current.until_⟩ hsort'
        (fun x hx => hlb x (List.mem_cons_of_mem _ hx)) w hw
    · rw [if_neg h] at hw
      rcases List.mem_cons.1 hw with rfl | hw'
      · exact le_refl _
      · exact le_trans (hlb current (List.mem_cons_self _ _))
          (ih current hsort' hcur w hw')

/-- The sweep output is sorted ascending on `since` whenever its input is. -/
lemma compressedAux_sorted : ∀ (rest : List TimeWindow) (latest : TimeWindow),
    List.Pairwise sinceLE rest → (∀ w ∈ rest, latest.since ≤ w.since) →
    List.Pairwise sinceLE (TimeWindowsCollection.compressedAux latest rest) := by
  intro rest
  induction rest with
  | nil =>
    intro latest _ _
    simp [TimeWindowsCollection.compressedAux]
  | cons current rest ih =>
    intro latest hsort hlb
    unfold TimeWindowsCollection.compressedAux
    rcases List.pairwise_cons.1 hsort with ⟨hcur, hsort'⟩
    by_cases h : latest.until_ ≥ current.since
    · rw [if_pos h]
      exact ih _ hsort' (fun x hx => hlb x (List.mem_cons_of_mem _ hx))
    · rw [if_neg h]
      refine List.pairwise_cons.2 ⟨?_, ih current hsort' hcur⟩
      intro w hw
      exact le_trans (hlb current (List.mem_cons_self _ _))
        (compressedAux_lower rest current hsort' hcur w hw)

/-- The compressed list is sorted ascending on `since`, for any input. -/
lemma compressed_sorted (l : List TimeWindow) :
    List.Pairwise sinceLE (TimeWindowsCollection.compressed l) := by
  unfold TimeWindowsCollection.compressed
  rcases hs : TimeWindowsCollection.time_windows_sorted_by_since l with _ | ⟨first, rest⟩
  · exact List.Pairwise.nil
  · have hsorted : List.Sorted sinceLE (first :: rest) := by
      rw [← hs]
      exact List.sorted_insertionSort sinceLE l
    rcases List.sorted_cons.1 hsorted with ⟨hlb, hsort'⟩
    exact compressedAux_sorted rest first hsort' hlb

/-- The compressed list is a chain of strictly separated windows, for any
input. -/
lemma compressed_chain (l : List TimeWindow) :
    List.Chain' (fun x y => x.until_ < y.since)
      (TimeWindowsCollection.compressed l) := by
  unfold TimeWindowsCollection.compressed
  rcases TimeWindowsCollection.time_windows_sorted_by_since l with _ | ⟨first, rest⟩
  · exact List.chain'_nil
  · exact compressedAux_chain rest first

/-- Members of the compressed list are valid when the input windows are. -/
lemma compressed_valid (l : List TimeWindow) (h : ∀ w ∈ l, w.valid) :
    ∀ w ∈ TimeWindowsCollection.compressed l, w.valid := by
  have hmem : ∀ w ∈ TimeWindowsCollection.time_windows_sorted_by_since l, w.valid :=
    fun w hw => h w ((List.perm_insertionSort sinceLE l).mem_iff.1 hw)
  unfold TimeWindowsCollection.compressed
  rcases hs : TimeWindowsCollection.time_windows_sorted_by_since l with _ | ⟨first, rest⟩
  · intro w hw
    exact absurd hw (List.not_mem_nil w)
  · rw [hs] at hmem
    exact compressedAux_valid rest first (hmem first (List.mem_cons_self _ _))
      (fun x hx => hmem x (List.mem_cons_of_mem _ hx))

/-- A chain of strictly separated valid windows is pairwise strictly
separated, and its head starts no later than any other member. -/
lemma chain_valid_pairwise : ∀ (xs : List TimeWindow) (x : TimeWindow),
    x.valid → (∀ w ∈ xs, w.valid) →
    List.Chain' (fun a b => a.until_ < b.since) (x :: xs) →
    List.Pairwise (fun a b => a.until_ < b.since) (x :: xs) ∧
      ∀ y ∈ xs, x.since ≤ y.since := by
  intro xs
  induction xs with
  | nil =>
    intro x _ _ _
    exact ⟨List.pairwise_singleton _ _, by simp⟩
  | cons h t ih =>
    intro x hx hval hchain
    rcases List.chain'_cons.1 hchain with ⟨hxh, hchain'⟩
    have hh : h.valid := hval h (List.mem_cons_self _ _)
    have hval' : ∀ w ∈ t, w.valid := fun w hw => hval w (List.mem_cons_of_mem _ hw)
    obtain ⟨hpair, hlow⟩ := ih h hh hval' hchain'
    have hxall : ∀ y ∈ h :: t, x.until_ < y.since := by
      intro y hy
      rcases List.mem_cons.1 hy with rfl | hy'
      · exact hxh
      · have hrel := List.rel_of_pairwise_cons hpair hy'
        unfold TimeWindow.valid at hh
        omega
    refine ⟨List.pairwise_cons.2 ⟨hxall, hpair⟩, ?_⟩
    intro y hy
    unfold TimeWindow.valid at hx
    rcases List.mem_cons.1 hy with rfl | hy'
    · omega
    · have h1 := hlow y hy'
      omega

/-- C2: for every collection of valid windows, the compressed list is sorted
ascending by `since` and pairwise strictly separated: any earlier member's
`until` is strictly less than any later member's `since` (hence no two
members overlap or touch). -/
theorem c2_compressed_invariant (l : List TimeWindow) (h : ∀ w ∈ l, w.valid) :
    List.Pairwise (fun x y => x.since ≤ y.since ∧ x.until_ < y.since)
      (TimeWindowsCollection.compressed l) := by
  have hchain := compressed_chain l
  have hvalid := compressed_valid l h
  have hsorted := compressed_sorted l
  rcases hc : TimeWindowsCollection.compressed l with _ | ⟨x, xs⟩
  · exact List.Pairwise.nil
  · rw [hc] at hchain hvalid hsorted
    obtain ⟨hpair, _⟩ := chain_valid_pairwise xs x (hvalid x (List.mem_cons_self _ _))
      (fun w hw => hvalid w (List.mem_cons_of_mem _ hw)) hchain
    exact hsorted.and hpair

/-- C2 witness: the theorem applied to the overlapping collection
`[[0,5), [3,7), [9,10)]`. -/
theorem c2_witness :
    List.Pairwise (fun x y => x.since ≤ y.since ∧ x.until_ < y.since)
      (TimeWindowsCollection.compressed [⟨0, 5⟩, ⟨3, 7⟩, ⟨9, 10⟩]) :=
  c2_compressed_invariant [⟨0, 5⟩, ⟨3, 7⟩, ⟨9, 10⟩] (by decide)

/-- Running the sweep over an already strictly separated list never merges:
it returns the list unchanged. -/
lemma compressedAux_of_chain : ∀ (rest : List TimeWindow) (latest : TimeWindow),
    List.Chain' (fun x y => x.until_ < y.since) (latest :: rest) →
    TimeWindowsCollection.compressedAux latest rest = latest :: rest := by
  intro rest
  induction rest with
  | nil =>
    intro latest _
    rfl
  | cons current rest ih =>
    intro latest hchain
    rcases List.chain'_cons.1 hchain with ⟨hlt, hchain'⟩
    unfold TimeWindowsCollection.compressedAux
    rw [if_neg (by omega), ih current hchain']

/-- C3: `compressed` is idempotent — compressing an already compressed
collection returns the same member windows in the same order. -/
theorem c3_compressed_idempotent (l : List TimeWindow) :
    TimeWindowsCollection.compressed (TimeWindowsCollection.compressed l) =
      TimeWindowsCollection.compressed l := by
  have hsorted := compressed_sorted l
  have hchain := compressed_chain l
  rcases hc : TimeWindowsCollection.compressed l with _ | ⟨x, xs⟩
  · rfl
  · rw [hc] at hsorted hchain
    unfold TimeWindowsCollection.compressed
    rw [show TimeWindowsCollection.time_windows_sorted_by_since (x :: xs) = x :: xs from
      List.Sorted.insertionSort_eq hsorted]
    exact compressedAux_of_chain xs x hchain
